import Mathlib

/-!
Verification development for the charging-station complaints dashboard
(`app.py`).  The Python pipeline is shallowly embedded: pure helper
functions of the script become Lean functions over `String`, `List`, `Nat`
and `Int`; pandas and Python-builtin behaviour that the script relies on
(regex `\s+` collapse, `str.lower`, `str.strip`, substring tests,
dictionary comprehension semantics, `pd.crosstab`, weekly `Period`
anchoring, `json.loads` results) is modelled explicitly next to the
functions that use it.
-/

/-- Python regex `\s` (ASCII whitespace classes used by `re.sub(r"\s+", ...)`). -/
def pyWS (c : Char) : Bool :=
  c = ' ' || c = '\t' || c = '\n' || c = '\r' || c = Char.ofNat 11 || c = Char.ofNat 12

/-- Python `str.lower` restricted to the alphabets appearing in the app:
ASCII `A`-`Z` and Cyrillic `А`-`Я` / `Ё`. -/
def toLowerPy (c : Char) : Char :=
  if 'A' ≤ c && c ≤ 'Z' then Char.ofNat (c.toNat + 32)
  else if Char.ofNat 0x410 ≤ c && c ≤ Char.ofNat 0x42F then Char.ofNat (c.toNat + 32)
  else if c = Char.ofNat 0x401 then Char.ofNat 0x451
  else c

/-- Python `str.strip()` on a character list: drop leading and trailing whitespace. -/
def stripChars (l : List Char) : List Char :=
  ((l.dropWhile pyWS).reverse.dropWhile pyWS).reverse

/-- `re.sub(r"\s+", " ", ·)`: replace every maximal whitespace run by one space. -/
def collapseRuns : List Char → List Char
  | [] => []
  | [c] => [if pyWS c then ' ' else c]
  | c₁ :: c₂ :: rest =>
    if pyWS c₁ && pyWS c₂ then collapseRuns (c₂ :: rest)
    else (if pyWS c₁ then ' ' else c₁) :: collapseRuns (c₂ :: rest)

/-- `app.py` `_norm`: `re.sub(r"\s+", " ", str(s).strip()).lower()`. -/
def _norm (s : String) : String :=
  String.mk ((collapseRuns (stripChars s.toList)).map toLowerPy)

/-- Python `str.strip()` on a string. -/
def stripStr (s : String) : String :=
  String.mk (stripChars s.toList)

/-- `needle` occurs at the very start of `hay`. -/
def listHasPre : List Char → List Char → Bool
  | [], _ => true
  | _ :: _, [] => false
  | a :: as, b :: bs => a = b && listHasPre as bs

/-- `needle` occurs somewhere in `hay` (Python `needle in hay` on strings). -/
def listHasSub (needle : List Char) : List Char → Bool
  | [] => listHasPre needle []
  | b :: bs => listHasPre needle (b :: bs) || listHasSub needle bs

/-- Python `needle in hay` for strings. -/
def strHasSub (needle hay : String) : Bool :=
  listHasSub needle.toList hay.toList

/-- Python code-point lexicographic `<` on character lists. -/
def ltChars : List Char → List Char → Bool
  | [], [] => false
  | [], _ :: _ => true
  | _ :: _, [] => false
  | a :: as, b :: bs =>
    if a.toNat < b.toNat then true
    else if b.toNat < a.toNat then false
    else ltChars as bs

/-- Python `<` on strings (code-point lexicographic). -/
def pyLtStr (s t : String) : Bool :=
  ltChars s.toList t.toList

/-!  ### Column resolver (`pick_col`, app.py lines 54-68)

`norm_cols = {_norm(c): c for c in columns}` is a Python dict
comprehension: insertion-ordered, the key keeps its first position, the
value is overwritten by the last column with that normalized form.  It is
modelled by an association list built with `dictInsert`. -/

/-- Lookup in an insertion-ordered association list (Python `d[k]` / `k in d`). -/
def dlookup : List (String × String) → String → Option String
  | [], _ => none
  | p :: ps, k => if p.1 = k then some p.2 else dlookup ps k

/-- Python `d[k] = v`: overwrite the value in place if the key exists,
append otherwise. -/
def dictInsert (d : List (String × String)) (k v : String) : List (String × String) :=
  if (dlookup d k).isSome then d.map (fun p => if p.1 = k then (k, v) else p)
  else d ++ [(k, v)]

/-- `{_norm(c): c for c in columns}`. -/
def buildDict (columns : List String) : List (String × String) :=
  columns.foldl (fun d c => dictInsert d (_norm c) c) []

/-- First loop of `pick_col`: first candidate whose normalized form is a key. -/
def exactPhase (d : List (String × String)) : List String → Option String
  | [] => none
  | c :: cs =>
    match dlookup d (_norm c) with
    | some v => some v
    | none => exactPhase d cs

/-- Inner loop of the fallback: first dict entry whose key contains `key`. -/
def dfindSub : List (String × String) → String → Option String
  | [], _ => none
  | p :: ps, key => if strHasSub key p.1 then some p.2 else dfindSub ps key

/-- Second loop of `pick_col` (partial-match fallback). -/
def subPhase (d : List (String × String)) : List String → Option String
  | [] => none
  | c :: cs =>
    match (if _norm c ≠ "" then dfindSub d (_norm c) else none) with
    | some v => some v
    | none => subPhase d cs

/-- `app.py` `pick_col`. -/
def pick_col (columns : List String) (candidates : List String) : Option String :=
  if columns = [] then none
  else
    match exactPhase (buildDict columns) candidates with
    | some v => some v
    | none => subPhase (buildDict columns) candidates

/-!  ### Theme classifier (`classify_theme`, app.py lines 116-125)  -/

/-- One entry of the theme-rules list: `{"theme": ..., "keywords": [...]}`.
A missing `"theme"` key (`r.get("theme", "")`) behaves as `""` and a
missing `"keywords"` key as `[]`, so both are folded into the fields. -/
structure ThemeRule where
  theme : String
  keywords : List String
deriving DecidableEq, Repr

/-- `(r.get("theme", "") or "").strip() or "Без темы"`. -/
def effLabel (t : String) : String :=
  if stripStr t = "" then "Без темы" else stripStr t

/-- A rule fires on (already normalized) text `t` when some keyword,
normalized, is non-empty and occurs in `t` (`if kk and kk in t`). -/
def ruleMatchesB (t : String) (r : ThemeRule) : Bool :=
  r.keywords.any (fun k => _norm k ≠ "" && strHasSub (_norm k) t)

/-- Inner loop of `classify_theme` over the rule list. -/
def classifyGo (t : String) : List ThemeRule → String
  | [] => "Другое"
  | r :: rs => if ruleMatchesB t r then effLabel r.theme else classifyGo t rs

/-- `app.py` `classify_theme`. -/
def classify_theme (text : String) (rules : List ThemeRule) : String :=
  classifyGo (_norm text) rules

/-- `app.py` `DEFAULT_THEME_RULES`. -/
def DEFAULT_THEME_RULES : List ThemeRule :=
  [⟨"Мобильное приложение", ["мобильн", "прилож"]⟩,
   ⟨"Запуск сессии / Авторизация", ["не запускает", "запуск", "авториза", "сесси"]⟩,
   ⟨"Прерывание сессии", ["прерыван", "самопроизвольн"]⟩,
   ⟨"Платежи / Баланс", ["пополн", "банковск", "баланс", "денеж", "возврат"]⟩,
   ⟨"Скорость/мощность", ["низкая скорость", "медленно", "мощност"]⟩,
   ⟨"Оффлайн/сеть/доступность", ["не в сети", "недоступ", "мониторинг"]⟩,
   ⟨"Парковка/занято", ["парков", "занято", "двс", "пдд"]⟩,
   ⟨"Коннекторы/кнопка", ["коннектор", "аварийн", "кнопк"]⟩,
   ⟨"Установка ЭЗС", ["установк", "территори"]⟩]

/-!  ### Vendor → plant (`normalize_vendor_to_plant`, app.py lines 139-148)  -/

/-- `app.py` `DEFAULT_VENDOR_MAP` (a Python dict; insertion-ordered pairs). -/
def DEFAULT_VENDOR_MAP : List (String × List String) :=
  [("ЕПРОМ", ["епром", "eprom", "e-prom", "e prom"]),
   ("НСП", ["нсп", "nsp"])]

/-- Loop of `normalize_vendor_to_plant` over `vendor_map.items()`. -/
def vendorGo (s : String) : List (String × List String) → String
  | [] => "Другое"
  | (plant, keys) :: rest =>
    if keys.any (fun k => _norm k ≠ "" && strHasSub (_norm k) s) then plant
    else vendorGo s rest

/-- `app.py` `normalize_vendor_to_plant`. -/
def normalize_vendor_to_plant (v : String) (vendor_map : List (String × List String)) : String :=
  if _norm v = "" || _norm v = "nan" then "—"
  else vendorGo (_norm v) vendor_map

/-!  ### Calendar model

Timestamps are modelled at day precision as days since 1970-01-01 (the
resolution the derived keys depend on).  `daysFromCivil` is the standard
proleptic-Gregorian day count (valid for the years used here). -/

/-- Days since 1970-01-01 of the Gregorian date `y-m-d` (`1 ≤ y`). -/
def daysFromCivil (y m d : Nat) : Int :=
  let yp := y - (if m ≤ 2 then 1 else 0)
  let era := yp / 400
  let yoe := yp % 400
  let mp := if m > 2 then m - 3 else m + 9
  let doy := (153 * mp + 2) / 5 + d - 1
  let doe := yoe * 365 + yoe / 4 - yoe / 100 + doy
  (era * 146097 + doe : Int) - 719468

/-- Day of week with Monday = 0 (1970-01-01 was a Thursday = 3). -/
def weekdayPy (t : Int) : Int :=
  Int.emod (t + 3) 7

/-- pandas `ts.to_period("W-MON").start_time` at day precision: a
`W-MON` weekly period *ends* on Monday, so its start is the Tuesday on or
before `t` (6 days before the first Monday ≥ `t`).  This is what
app.py line 309 computes for `_week_start`. -/
def weekStartWMON (t : Int) : Int :=
  t - Int.emod (weekdayPy t + 6) 7

/-- Modelled from the spec: `week_start` = "the Monday on/before the
timestamp's date (i.e., ISO week start)"; stated for comparison with the
code's `weekStartWMON`. -/
def mondayOnOrBefore (t : Int) : Int :=
  t - weekdayPy t

/-- Split a character list on `'.'`. -/
def splitDots : List Char → List (List Char)
  | [] => [[]]
  | c :: cs =>
    if c = '.' then [] :: splitDots cs
    else
      match splitDots cs with
      | t :: ts => (c :: t) :: ts
      | [] => [[c]]

/-- Read a non-empty all-digit character list as a number. -/
def digitsToNat (l : List Char) : Option Nat :=
  if l ≠ [] ∧ l.all (fun c => '0' ≤ c && c ≤ '9') then
    some (l.foldl (fun a c => 10 * a + (c.toNat - 48)) 0)
  else none

/-- pandas `pd.to_datetime(·, dayfirst=True)` restricted to the
`"DD.MM.YYYY"` shape exercised by the spec's scenario (modelled library
semantics: split on `"."`, read day, month, year in that order). -/
def parseDayFirstDots (s : String) : Option Int :=
  match (splitDots s.toList).map digitsToNat with
  | [some d, some m, some y] =>
    if 1 ≤ m && m ≤ 12 && 1 ≤ d && d ≤ 31 && 1 ≤ y then some (daysFromCivil y m d)
    else none
  | _ => none

/-!  ### Smart datetime parsing (`parse_dt_smart`, app.py lines 97-113)

The two `pd.to_datetime(s, dayfirst=·, errors="coerce")` bulk parses are
abstracted as row-wise parse functions `p1`/`p2` (`errors="coerce"` turns
a per-row failure into a null, i.e. `none`).  `.notna().mean() >= 0.5` on
a series of length `n` with `c` non-null entries is `2*c ≥ n` for
`n ≠ 0`; for `n = 0` the mean is NaN and both NaN comparisons in the code
are false, so the first result is returned — the embedding's branches
reproduce exactly that. -/

/-- Build the text series: `date + " " + time` when a time column is set. -/
def combineDT (dates : List String) : Option (List String) → List String
  | some times => List.zipWith (fun d t => d ++ " " ++ t) dates times
  | none => dates

/-- Count of successfully parsed (non-null) entries (`dt.notna().sum()`). -/
def okCount (l : List (Option Int)) : Nat :=
  (l.filter Option.isSome).length

/-- `app.py` `parse_dt_smart`, with the two pandas parse conventions
passed in as `p1` (dayfirst=True) and `p2` (dayfirst=False). -/
def parse_dt_smart (p1 p2 : String → Option Int) (dates : List String)
    (times : Option (List String)) : List (Option Int) :=
  let s := combineDT dates times
  let dt1 := s.map p1
  if 2 * okCount dt1 ≥ s.length ∧ s.length ≠ 0 then dt1
  else
    let dt2 := s.map p2
    if okCount dt2 > okCount dt1 then dt2 else dt1

/-!  ### Cross-tabulation (`pd.crosstab`, `add_totals_crosstab`, `reason_plant`)

`pd.crosstab(idx, col, dropna=False)` over two aligned series of strings:
row labels are the sorted distinct values of `idx`, column labels the
sorted distinct values of `col`, and each cell counts the positions
carrying that pair of values. -/

/-- Insert into a sorted duplicate-free list (Python code-point order). -/
def insSorted (x : String) : List String → List String
  | [] => [x]
  | y :: ys =>
    if x = y then y :: ys
    else if pyLtStr x y then x :: y :: ys
    else y :: insSorted x ys

/-- Sorted distinct values of a list of strings. -/
def dedupSortStr (l : List String) : List String :=
  l.foldl (fun acc x => insSorted x acc) []

/-- Row labels of `pd.crosstab` over the aligned pairs. -/
def ctRows (pairs : List (String × String)) : List String :=
  dedupSortStr (pairs.map Prod.fst)

/-- Column labels of `pd.crosstab` over the aligned pairs. -/
def ctCols (pairs : List (String × String)) : List String :=
  dedupSortStr (pairs.map Prod.snd)

/-- A cell of `pd.crosstab`: how many positions carry the pair `(r, c)`. -/
def ctCell (pairs : List (String × String)) (r c : String) : Nat :=
  (pairs.filter (fun p => p.1 = r && p.2 = c)).length

/-- `idx.fillna("—")` / `col.fillna("—")` and alignment of the two series. -/
def fillPairs (index columns : List (Option String)) : List (String × String) :=
  (index.zip columns).map (fun p => (p.1.getD "—", p.2.getD "—"))

/-- `add_totals_crosstab` after `ct[total_name] = ct.sum(axis=1)`:
the cell grid with the appended totals column. -/
def attCellPre (pairs : List (String × String)) (tn r c : String) : Nat :=
  if c = tn then ((ctCols pairs).map (ctCell pairs r)).sum else ctCell pairs r c

/-- Full cell grid of `app.py` `add_totals_crosstab` (totals column, then
`total_row = ct.sum(axis=0)` appended as row `tn`). -/
def attCell (pairs : List (String × String)) (tn r c : String) : Nat :=
  if r = tn then ((ctRows pairs).map (fun r' => attCellPre pairs tn r' c)).sum
  else attCellPre pairs tn r c

/-- Row labels of the `add_totals_crosstab` output. -/
def attRows (pairs : List (String × String)) (tn : String) : List String :=
  ctRows pairs ++ [tn]

/-- Column labels of the `add_totals_crosstab` output. -/
def attCols (pairs : List (String × String)) (tn : String) : List String :=
  ctCols pairs ++ [tn]

/-- `app.py` lines 399-403: the `reason_plant` table is a plain
`pd.crosstab` (no totals); after `reset_index` its columns are
`"Причина"` followed by the crosstab's column labels. -/
def reason_plant_cols (rows : List (Option String × Option String)) : List String :=
  "Причина" :: ctCols (rows.map (fun p => (p.1.getD "—", p.2.getD "—")))

/-- Row labels (the `"Причина"` column values) of the `reason_plant` table. -/
def reason_plant_rows (rows : List (Option String × Option String)) : List String :=
  ctRows (rows.map (fun p => (p.1.getD "—", p.2.getD "—")))

/-- A count cell of the `reason_plant` table. -/
def reason_plant_cell (rows : List (Option String × Option String)) (r c : String) : Nat :=
  ctCell (rows.map (fun p => (p.1.getD "—", p.2.getD "—"))) r c

/-!  ### Multi-source load (app.py lines 216-254)  -/

/-- Split a character list on a separator character. -/
def splitOnChar (sep : Char) : List Char → List (List Char)
  | [] => [[]]
  | c :: cs =>
    if c = sep then [] :: splitOnChar sep cs
    else
      match splitOnChar sep cs with
      | t :: ts => (c :: t) :: ts
      | [] => [[c]]

/-- `[g.strip() for g in str(gids_text).split(",") if g.strip()]`. -/
def parseGids (gids_text : String) : List String :=
  ((splitOnChar ',' gids_text.toList).map (fun l => stripStr (String.mk l))).filter
    (fun g => g ≠ "")

/-- One table row: named fields, as loaded from a sheet. -/
abbrev Row := List (String × String)

/-- `dfi["_source_gid"] = gid`: tag every row of a fetched table. -/
def tagRows (gid : String) (rows : List Row) : List Row :=
  rows.map (fun r => r ++ [("_source_gid", gid)])

/-- Outcome of the load block: the two `safe_stop` conditions (`"Не
удалось прочитать ни один лист по GID"` with no frames, `"Таблица
пустая..."` with zero merged rows), the missing-GID stop, or success with
the merged rows and the collected per-sheet errors. -/
inductive LoadResult where
  | noGids
  | noFrames (errors : List (String × String))
  | emptyTable (errors : List (String × String))
  | ok (rows : List Row) (errors : List (String × String))
deriving DecidableEq, Repr

/-- Body of the `for gid in gids` loop: append a tagged frame on success,
collect `(gid, error)` on failure. -/
def loadStep (fetch : String → Except String (List Row))
    (acc : List (List Row) × List (String × String)) (gid : String) :
    List (List Row) × List (String × String) :=
  match fetch gid with
  | .ok dfi => (acc.1 ++ [tagRows gid dfi], acc.2)
  | .error e => (acc.1, acc.2 ++ [(gid, e)])

/-- The Google-Sheets branch of the load block (app.py lines 216-254),
with the per-sheet fetch (`load_from_gsheets`, an HTTP call) passed in as
`fetch`.  `pd.concat(frames, ignore_index=True)` is row concatenation. -/
def loadMulti (fetch : String → Except String (List Row)) (gids_text : String) : LoadResult :=
  let gids := parseGids gids_text
  if gids = [] then .noGids
  else
    let acc := gids.foldl (loadStep fetch) ([], [])
    if acc.1 = [] then .noFrames acc.2
    else if acc.1.flatten = [] then .emptyTable acc.2
    else .ok acc.1.flatten acc.2

/-!  ### Theme-rules configuration (app.py lines 184-195)

`json.loads` output is modelled by the `PyJson` value family; the parse
itself (Python's `json` library) is abstracted as an `Except`: a raised
`JSONDecodeError` is `.error`, a parsed document is `.ok`. -/

mutual
inductive PyJson where
  | null
  | bool (b : Bool)
  | num (n : Int)
  | str (s : String)
  | arr (l : PyList)
  | obj (l : PyObj)
deriving Repr
inductive PyList where
  | nil
  | cons (hd : PyJson) (tl : PyList)
deriving Repr
inductive PyObj where
  | nil
  | cons (k : String) (v : PyJson) (tl : PyObj)
deriving Repr
end

mutual
def pyRepr : PyJson → String
  | .null => "None"
  | .bool true => "True"
  | .bool false => "False"
  | .num n => toString n
  | .str s => "'" ++ s ++ "'"
  | .arr l => "[" ++ pyReprList l ++ "]"
  | .obj l => "\x7b" ++ pyReprObj l ++ "\x7d"
def pyReprList : PyList → String
  | .nil => ""
  | .cons x .nil => pyRepr x
  | .cons x (.cons y tl) => pyRepr x ++ ", " ++ pyReprList (.cons y tl)
def pyReprObj : PyObj → String
  | .nil => ""
  | .cons k v .nil => "'" ++ k ++ "': " ++ pyRepr v
  | .cons k v (.cons k' v' tl) => "'" ++ k ++ "': " ++ pyRepr v ++ ", " ++ pyReprObj (.cons k' v' tl)
end

/-- Python `str(·)` of a JSON value (string escaping inside containers is
approximated; no theorem below depends on container rendering). -/
def pyStr : PyJson → String
  | .str s => s
  | j => pyRepr j

/-- Python truthiness of a JSON value. -/
def pyTruthy : PyJson → Bool
  | .null => false
  | .bool b => b
  | .num n => n ≠ 0
  | .str s => s ≠ ""
  | .arr .nil => false
  | .arr (.cons _ _) => true
  | .obj .nil => false
  | .obj (.cons _ _ _) => true

/-- Python `d.get(k, dflt)`. -/
def pyGet (o : PyObj) (k : String) (dflt : PyJson) : PyJson :=
  match o with
  | .nil => dflt
  | .cons k' v tl => if k' = k then v else pyGet tl k dflt

/-- Python `v.strip()`: only strings have `.strip` (otherwise
`AttributeError`). -/
def pyStripJson : PyJson → Except String String
  | .str s => .ok (stripStr s)
  | _ => .error "AttributeError: strip"

def PyList.toList : PyList → List PyJson
  | .nil => []
  | .cons x tl => x :: tl.toList

def PyObj.keys : PyObj → List String
  | .nil => []
  | .cons k _ tl => k :: tl.keys

/-- Python `for k in v`: lists yield elements, strings yield 1-character
strings, dicts yield keys; other truthy values raise `TypeError`. -/
def iterOf : PyJson → Except String (List PyJson)
  | .arr l => .ok l.toList
  | .str s => .ok (s.toList.map (fun c => .str (String.mk [c])))
  | .obj o => .ok (o.keys.map PyJson.str)
  | .null => .error "TypeError: not iterable"
  | .bool _ => .error "TypeError: not iterable"
  | .num _ => .error "TypeError: not iterable"

/-- One iteration of the rule loop of `classify_theme` on a raw JSON rule
`r` (app.py lines 118-124): compute the label, then scan the keywords;
`.ok (some l)` = return label `l`, `.ok none` = no keyword matched,
`.error` = the Python code would raise on this rule. -/
def ruleStep (t : String) (r : PyJson) : Except String (Option String) :=
  match r with
  | .obj kvs =>
    let th := pyGet kvs "theme" (.str "")
    match pyStripJson (if pyTruthy th then th else .str "") with
    | .error e => .error e
    | .ok s =>
      let label := if s = "" then "Без темы" else s
      let kw := pyGet kvs "keywords" (.arr .nil)
      match iterOf (if pyTruthy kw then kw else .arr .nil) with
      | .error e => .error e
      | .ok ks =>
        .ok (if ks.any (fun k => _norm (pyStr k) ≠ "" && strHasSub (_norm (pyStr k)) t)
             then some label else none)
  | _ => .error "AttributeError: get"

/-- Rule loop of `classify_theme` over raw JSON rules. -/
def classifyJsonGo (t : String) : List PyJson → Except String String
  | [] => .ok "Другое"
  | r :: rs =>
    match ruleStep t r with
    | .error e => .error e
    | .ok (some l) => .ok l
    | .ok none => classifyJsonGo t rs

/-- `classify_theme` applied to a raw JSON rule list (as the app does at
line 321 with the user-configured `theme_rules`). -/
def classifyThemeJson (text : String) (rules : PyList) : Except String String :=
  classifyJsonGo (_norm text) rules.toList

def strsToPyList : List String → PyList
  | [] => .nil
  | s :: ss => .cons (.str s) (strsToPyList ss)

/-- The JSON object `{"theme": ..., "keywords": [...]}` of a rule. -/
def jsonRule (r : ThemeRule) : PyJson :=
  .obj (.cons "theme" (.str r.theme) (.cons "keywords" (.arr (strsToPyList r.keywords)) .nil))

def rulesToPyList : List ThemeRule → PyList
  | [] => .nil
  | r :: rs => .cons (jsonRule r) (rulesToPyList rs)

/-- `DEFAULT_THEME_RULES` as the JSON document the sidebar text area holds. -/
def defaultThemeRulesJson : PyList :=
  rulesToPyList DEFAULT_THEME_RULES

/-- The configuration is malformed when `json.loads` raised or the parsed
document is not a list (`isinstance(theme_rules, list)` fails). -/
def malformedRules : Except String PyJson → Bool
  | .error _ => true
  | .ok (.arr _) => false
  | .ok _ => true

/-- app.py lines 189-195: the effective rule list and whether the
"JSON правил сломан — использую дефолт" warning is shown. -/
def theme_rules_cfg (input : Except String PyJson) : PyList × Bool :=
  match input with
  | .ok (.arr l) => (l, false)
  | _ => (defaultThemeRulesJson, true)

/-!  ## Theorems  -/

/-- C1: at the spec's own scenario input `"01.03.2024"` (timestamp date
2024-03-01, a Friday), the `W-MON`-anchored `week_start` computed at
app.py line 309 is 2024-02-27 — a Tuesday — whereas the Monday on/before
the timestamp (what the spec and the app's own "Неделя (понедельник)"
selector promise) is 2024-02-26.  The derived `week_start` is therefore
not the Monday on or before the timestamp's date. -/
theorem week_start_wmon_is_tuesday_at_2024_03_01 :
    parseDayFirstDots "01.03.2024" = some (daysFromCivil 2024 3 1)
    ∧ weekStartWMON (daysFromCivil 2024 3 1) = daysFromCivil 2024 2 27
    ∧ weekdayPy (daysFromCivil 2024 2 27) = 1
    ∧ mondayOnOrBefore (daysFromCivil 2024 3 1) = daysFromCivil 2024 2 26
    ∧ weekdayPy (daysFromCivil 2024 2 26) = 0
    ∧ weekStartWMON (daysFromCivil 2024 3 1) ≠ mondayOnOrBefore (daysFromCivil 2024 3 1) := by
  decide

/-- C2 counterexample: empty vendor text is mapped to the dash
placeholder `"—"` by `normalize_vendor_to_plant`, not to the fallback
`"Другое"`, so the output set is not the claimed closed set of three
labels. -/
theorem normalize_vendor_empty_is_dash :
    normalize_vendor_to_plant "" DEFAULT_VENDOR_MAP = "—"
    ∧ normalize_vendor_to_plant "" DEFAULT_VENDOR_MAP ≠ "Другое"
    ∧ normalize_vendor_to_plant "" DEFAULT_VENDOR_MAP ∉ (["ЕПРОМ", "НСП", "Другое"] : List String) := by
  decide

/-- Unfolding equation of the vendor loop on a cons. -/
theorem vendorGo_cons (s plant : String) (keys : List String) (rest : List (String × List String)) :
    vendorGo s ((plant, keys) :: rest) =
      if keys.any (fun k => _norm k ≠ "" && strHasSub (_norm k) s) then plant
      else vendorGo s rest := rfl

/-- Unfolding equation of `normalize_vendor_to_plant`. -/
theorem normalize_vendor_eq (v : String) (vm : List (String × List String)) :
    normalize_vendor_to_plant v vm =
      if _norm v = "" || _norm v = "nan" then "—" else vendorGo (_norm v) vm := rfl

/-- Helper: the vendor loop returns the fallback or one of the map's keys. -/
theorem vendorGo_mem (s : String) (vm : List (String × List String)) :
    vendorGo s vm = "Другое" ∨ vendorGo s vm ∈ vm.map Prod.fst := by
  induction vm with
  | nil => exact Or.inl rfl
  | cons p rest ih =>
    obtain ⟨plant, keys⟩ := p
    rw [vendorGo_cons]
    by_cases h : keys.any (fun k => _norm k ≠ "" && strHasSub (_norm k) s) = true
    · rw [if_pos h]
      exact Or.inr (by simp)
    · rw [if_neg h]
      rcases ih with h' | h'
      · exact Or.inl h'
      · refine Or.inr ?_
        rw [List.map_cons]
        exact List.mem_cons_of_mem _ h'

/-- C2 amended: `normalize_vendor_to_plant` maps any vendor text to the
dash placeholder `"—"` (empty or `"nan"` text), a key of the vendor map,
or the fallback `"Другое"` — under the default map a closed set of four
labels, with `"NSP-2000" ↦ "НСП"` and `"" ↦ "—"`. -/
theorem normalize_vendor_label_set :
    (∀ (vm : List (String × List String)) (v : String),
      normalize_vendor_to_plant v vm = "—" ∨ normalize_vendor_to_plant v vm = "Другое"
      ∨ normalize_vendor_to_plant v vm ∈ vm.map Prod.fst)
    ∧ (∀ v, normalize_vendor_to_plant v DEFAULT_VENDOR_MAP
        ∈ (["ЕПРОМ", "НСП", "Другое", "—"] : List String))
    ∧ normalize_vendor_to_plant "NSP-2000" DEFAULT_VENDOR_MAP = "НСП"
    ∧ normalize_vendor_to_plant "" DEFAULT_VENDOR_MAP = "—" := by
  have base : ∀ (vm : List (String × List String)) (v : String),
      normalize_vendor_to_plant v vm = "—" ∨ normalize_vendor_to_plant v vm = "Другое"
      ∨ normalize_vendor_to_plant v vm ∈ vm.map Prod.fst := by
    intro vm v
    rw [normalize_vendor_eq]
    by_cases h : (_norm v = "" || _norm v = "nan") = true
    · rw [if_pos h]
      exact Or.inl rfl
    · rw [if_neg h]
      rcases vendorGo_mem (_norm v) vm with h' | h'
      · exact Or.inr (Or.inl h')
      · exact Or.inr (Or.inr h')
  refine ⟨base, ?_, by decide, by decide⟩
  intro v
  rcases base DEFAULT_VENDOR_MAP v with h | h | h
  · rw [h]; decide
  · rw [h]; decide
  · have hm : DEFAULT_VENDOR_MAP.map Prod.fst = ["ЕПРОМ", "НСП"] := rfl
    rw [hm] at h
    rcases List.mem_cons.mp h with h1 | h1
    · rw [h1]; decide
    · rcases List.mem_cons.mp h1 with h2 | h2
      · rw [h2]; decide
      · exact absurd h2 (List.not_mem_nil _)

/-- C4: with a filtered set whose only plant value is `"ЕПРОМ"`, the
`reason_plant` crosstab contains only the `"ЕПРОМ"` plant column — the
fixed labels `"НСП"`, `"Другое"`, `"—"` are dropped, because the
`# ensure columns order` loop at app.py lines 406-408 has a `pass` body
and never inserts the missing fixed columns. -/
theorem reason_plant_drops_absent_plant_columns :
    reason_plant_cols [(some "Зарядка не работает", some "ЕПРОМ")] = ["Причина", "ЕПРОМ"]
    ∧ "НСП" ∉ reason_plant_cols [(some "Зарядка не работает", some "ЕПРОМ")]
    ∧ "Другое" ∉ reason_plant_cols [(some "Зарядка не работает", some "ЕПРОМ")]
    ∧ "—" ∉ reason_plant_cols [(some "Зарядка не работает", some "ЕПРОМ")] := by
  decide

/-- C3 counterexample: the displayed reason-by-plant table (app.py lines
399-403) is a plain `pd.crosstab` — `add_totals_crosstab` is never
applied to it — so no `"Итого"` totals column or row is appended. -/
theorem reason_plant_has_no_totals :
    reason_plant_cols [(some "Причина А", some "ЕПРОМ"), (some "Причина А", some "НСП")]
      = ["Причина", "ЕПРОМ", "НСП"]
    ∧ "Итого" ∉ reason_plant_cols [(some "Причина А", some "ЕПРОМ"), (some "Причина А", some "НСП")]
    ∧ reason_plant_rows [(some "Причина А", some "ЕПРОМ"), (some "Причина А", some "НСП")]
      = ["Причина А"]
    ∧ "Итого" ∉ reason_plant_rows [(some "Причина А", some "ЕПРОМ"), (some "Причина А", some "НСП")] := by
  decide

/-- C3 amended: the helper `add_totals_crosstab` does append a totals
column and a totals row labeled `total_name` (`"Итого"`), and its output
satisfies the totals invariant: each data row's non-total cells sum to
its total-column cell, and each data column's non-total cells sum to its
total-row cell. -/
theorem add_totals_crosstab_sums (index columns : List (Option String)) (tn : String)
    (hr : tn ∉ ctRows (fillPairs index columns))
    (hc : tn ∉ ctCols (fillPairs index columns)) :
    attRows (fillPairs index columns) tn = ctRows (fillPairs index columns) ++ [tn]
    ∧ attCols (fillPairs index columns) tn = ctCols (fillPairs index columns) ++ [tn]
    ∧ (∀ r ∈ ctRows (fillPairs index columns),
        ((ctCols (fillPairs index columns)).map
          (attCell (fillPairs index columns) tn r)).sum
        = attCell (fillPairs index columns) tn r tn)
    ∧ (∀ c ∈ ctCols (fillPairs index columns),
        ((ctRows (fillPairs index columns)).map
          (fun r => attCell (fillPairs index columns) tn r c)).sum
        = attCell (fillPairs index columns) tn tn c) := by
  set pairs := fillPairs index columns with hp
  refine ⟨rfl, rfl, ?_, ?_⟩
  · intro r hmem
    have hrne : r ≠ tn := fun h => hr (h ▸ hmem)
    have h1 : ∀ c ∈ ctCols pairs, attCell pairs tn r c = ctCell pairs r c := by
      intro c hcm
      have hcne : c ≠ tn := fun h => hc (h ▸ hcm)
      unfold attCell attCellPre
      rw [if_neg hrne, if_neg hcne]
    rw [List.map_congr_left h1]
    unfold attCell attCellPre
    rw [if_neg hrne, if_pos rfl]
  · intro c hcm
    have h1 : ∀ r ∈ ctRows pairs, attCell pairs tn r c = attCellPre pairs tn r c := by
      intro r hmem
      have hrne : r ≠ tn := fun h => hr (h ▸ hmem)
      unfold attCell
      rw [if_neg hrne]
    rw [List.map_congr_left h1]
    unfold attCell
    rw [if_pos rfl]

/-- Unfolding equation of the classifier loop on a cons. -/
theorem classifyGo_cons (t : String) (r : ThemeRule) (rs : List ThemeRule) :
    classifyGo t (r :: rs) =
      if ruleMatchesB t r then effLabel r.theme else classifyGo t rs := rfl

/-- Helper: the classifier loop returns the fallback or the effective
label of some rule of the list. -/
theorem classifyGo_mem (t : String) (rs : List ThemeRule) :
    classifyGo t rs = "Другое" ∨ ∃ r ∈ rs, classifyGo t rs = effLabel r.theme := by
  induction rs with
  | nil => exact Or.inl rfl
  | cons r rest ih =>
    rw [classifyGo_cons]
    by_cases h : ruleMatchesB t r = true
    · rw [if_pos h]
      exact Or.inr ⟨r, List.mem_cons_self r rest, rfl⟩
    · rw [if_neg h]
      rcases ih with h' | ⟨r', hr', he⟩
      · exact Or.inl h'
      · exact Or.inr ⟨r', List.mem_cons_of_mem _ hr', he⟩

/-- Helper: rules that do not match are skipped by the classifier loop. -/
theorem classifyGo_append_nomatch (t : String) (R1 rest : List ThemeRule)
    (h : ∀ r ∈ R1, ruleMatchesB t r = false) :
    classifyGo t (R1 ++ rest) = classifyGo t rest := by
  induction R1 with
  | nil => rfl
  | cons r R ih =>
    rw [List.cons_append, classifyGo_cons,
      if_neg (by rw [h r (List.mem_cons_self r R)]; exact Bool.false_ne_true)]
    exact ih fun r' hr' => h r' (List.mem_cons_of_mem _ hr')

/-- C5 amended: `classify_theme` matches rules against the
whitespace-collapsed, lower-cased text; it always returns the fallback
`"Другое"` or the *effective* label of some rule (the rule's theme text
stripped, or `"Без темы"` when that is empty); the first rule with a
matching normalized keyword wins, earlier non-matching rules are skipped,
and when no rule matches the fallback is returned. -/
theorem classify_theme_first_match (text : String) (rules : List ThemeRule) :
    (classify_theme text rules = "Другое"
      ∨ ∃ r ∈ rules, classify_theme text rules = effLabel r.theme)
    ∧ (∀ R1 r R2, rules = R1 ++ r :: R2 → ruleMatchesB (_norm text) r = true →
        (∀ r' ∈ R1, ruleMatchesB (_norm text) r' = false) →
        classify_theme text rules = effLabel r.theme)
    ∧ ((∀ r ∈ rules, ruleMatchesB (_norm text) r = false) →
        classify_theme text rules = "Другое") := by
  refine ⟨classifyGo_mem (_norm text) rules, ?_, ?_⟩
  · intro R1 r R2 hsplit hm hno
    show classifyGo (_norm text) rules = effLabel r.theme
    rw [hsplit, classifyGo_append_nomatch (_norm text) R1 (r :: R2) hno,
      classifyGo_cons, if_pos hm]
  · intro hno
    show classifyGo (_norm text) rules = "Другое"
    have := classifyGo_append_nomatch (_norm text) rules [] hno
    rwa [List.append_nil] at this

/-- C5 witness: the second rule of a three-rule list wins on text
matching its keyword when the first rule does not match, even though the
third rule would also match. -/
theorem classify_theme_first_match_witness :
    classify_theme "ab" [⟨"X", ["z"]⟩, ⟨"A", ["a"]⟩, ⟨"B", ["b"]⟩] = "A" := by
  exact (classify_theme_first_match "ab" [⟨"X", ["z"]⟩, ⟨"A", ["a"]⟩, ⟨"B", ["b"]⟩]).2.1
    [⟨"X", ["z"]⟩] ⟨"A", ["a"]⟩ [⟨"B", ["b"]⟩] rfl (by decide) (by decide)

/-- C5 counterexample: a rule with an empty theme yields the label
`"Без темы"`, which is neither that rule's label nor the fallback
`"Другое"` — the result can escape the claimed label set. -/
theorem classify_theme_empty_theme_label :
    classify_theme "a" [⟨"", ["a"]⟩] = "Без темы"
    ∧ "Без темы" ∉ ([⟨"", ["a"]⟩] : List ThemeRule).map ThemeRule.theme
    ∧ "Без темы" ≠ "Другое" := by
  decide

/-- Unfolding equation of `parse_dt_smart`. -/
theorem parse_dt_smart_eq (p1 p2 : String → Option Int) (dates : List String)
    (times : Option (List String)) :
    parse_dt_smart p1 p2 dates times =
      if 2 * okCount ((combineDT dates times).map p1) ≥ (combineDT dates times).length
          ∧ (combineDT dates times).length ≠ 0
      then (combineDT dates times).map p1
      else if okCount ((combineDT dates times).map p2)
          > okCount ((combineDT dates times).map p1)
        then (combineDT dates times).map p2
        else (combineDT dates times).map p1 := rfl

/-- C6: `parse_dt_smart` accepts the day-first bulk parse when at least
half of the rows parsed (non-null), otherwise takes the month-first parse
exactly when it has a strictly higher success count (ties keep
day-first); the result is always one of the two row-wise bulk parses and
always has one entry per row, so an individually malformed string only
makes its own row null. -/
theorem parse_dt_smart_convention_choice (p1 p2 : String → Option Int) (dates : List String)
    (times : Option (List String)) :
    (2 * okCount ((combineDT dates times).map p1) ≥ (combineDT dates times).length →
      combineDT dates times ≠ [] →
      parse_dt_smart p1 p2 dates times = (combineDT dates times).map p1)
    ∧ (2 * okCount ((combineDT dates times).map p1) < (combineDT dates times).length →
      okCount ((combineDT dates times).map p2) > okCount ((combineDT dates times).map p1) →
      parse_dt_smart p1 p2 dates times = (combineDT dates times).map p2)
    ∧ (2 * okCount ((combineDT dates times).map p1) < (combineDT dates times).length →
      okCount ((combineDT dates times).map p2) ≤ okCount ((combineDT dates times).map p1) →
      parse_dt_smart p1 p2 dates times = (combineDT dates times).map p1)
    ∧ (parse_dt_smart p1 p2 dates times = (combineDT dates times).map p1
      ∨ parse_dt_smart p1 p2 dates times = (combineDT dates times).map p2)
    ∧ (parse_dt_smart p1 p2 dates times).length = (combineDT dates times).length := by
  rw [parse_dt_smart_eq]
  refine ⟨?_, ?_, ?_, ?_, ?_⟩
  · intro hge hne
    rw [if_pos ⟨hge, fun h0 => hne (List.length_eq_zero.mp h0)⟩]
  · intro hlt hgt
    rw [if_neg (fun hcon => absurd hcon.1 (by omega)), if_pos hgt]
  · intro hlt hle
    rw [if_neg (fun hcon => absurd hcon.1 (by omega)),
      if_neg (fun hcon => absurd hcon (by omega))]
  · by_cases h1 : 2 * okCount ((combineDT dates times).map p1) ≥ (combineDT dates times).length
        ∧ (combineDT dates times).length ≠ 0
    · rw [if_pos h1]; exact Or.inl rfl
    · rw [if_neg h1]
      by_cases h2 : okCount ((combineDT dates times).map p2)
          > okCount ((combineDT dates times).map p1)
      · rw [if_pos h2]; exact Or.inr rfl
      · rw [if_neg h2]; exact Or.inl rfl
  · by_cases h1 : 2 * okCount ((combineDT dates times).map p1) ≥ (combineDT dates times).length
        ∧ (combineDT dates times).length ≠ 0
    · rw [if_pos h1, List.length_map]
    · rw [if_neg h1]
      by_cases h2 : okCount ((combineDT dates times).map p2)
          > okCount ((combineDT dates times).map p1)
      · rw [if_pos h2, List.length_map]
      · rw [if_neg h2, List.length_map]

/-- C6 witness: with one well-formed and one malformed date string, the
day-first parse succeeds on half the rows and is accepted; the malformed
row alone is null. -/
theorem parse_dt_smart_convention_choice_witness :
    parse_dt_smart parseDayFirstDots (fun _ => none) ["01.03.2024", "мусор"] none
      = [some (daysFromCivil 2024 3 1), none] := by
  exact (parse_dt_smart_convention_choice parseDayFirstDots (fun _ => none)
    ["01.03.2024", "мусор"] none).1 (by decide) (by decide)

/-- Unfolding equation of `dlookup` on a cons. -/
theorem dlookup_cons (q : String × String) (qs : List (String × String)) (k : String) :
    dlookup (q :: qs) k = if q.1 = k then some q.2 else dlookup qs k := rfl

/-- Updating the value stored at `k'` only changes the lookup at `k'`. -/
theorem dlookup_map_upd (k' v k : String) (d : List (String × String)) :
    dlookup (d.map (fun p => if p.1 = k' then (k', v) else p)) k =
      if k = k' then (dlookup d k).map (fun _ => v) else dlookup d k := by
  induction d with
  | nil =>
    simp only [List.map_nil]
    by_cases h : k = k' <;> simp [dlookup, h]
  | cons p ps ih =>
    simp only [List.map_cons]
    by_cases h1 : p.1 = k' <;> by_cases h2 : k = k'
    · subst h2
      simp [dlookup_cons, h1]
    · simp [dlookup_cons, h1, Ne.symm h2, h2, ih]
    · subst h2
      simp [dlookup_cons, h1, ih]
    · by_cases h3 : p.1 = k <;> simp [dlookup_cons, h1, h2, h3, ih]

/-- Lookup distributes over append, first list first. -/
theorem dlookup_append (d1 d2 : List (String × String)) (k : String) :
    dlookup (d1 ++ d2) k = (dlookup d1 k).or (dlookup d2 k) := by
  induction d1 with
  | nil => simp [dlookup]
  | cons p ps ih =>
    by_cases h : p.1 = k <;> simp [dlookup_cons, h, ih]

/-- Python `d[k'] = v` semantics for lookup. -/
theorem dlookup_dictInsert (d : List (String × String)) (k' v k : String) :
    dlookup (dictInsert d k' v) k = if k = k' then some v else dlookup d k := by
  unfold dictInsert
  by_cases hs : (dlookup d k').isSome
  · rw [if_pos hs, dlookup_map_upd]
    by_cases h2 : k = k'
    · subst h2
      obtain ⟨w, hw⟩ := Option.isSome_iff_exists.mp hs
      rw [if_pos rfl, if_pos rfl, hw]
      rfl
    · rw [if_neg h2, if_neg h2]
  · rw [if_neg hs, dlookup_append]
    by_cases h2 : k = k'
    · subst h2
      have hnone : dlookup d k = none := Option.not_isSome_iff_eq_none.mp hs
      rw [hnone, if_pos rfl]
      simp [dlookup]
    · rw [if_neg h2]
      have hn : dlookup [(k', v)] k = none := by
        simp [dlookup, Ne.symm h2]
      rw [hn]
      cases dlookup d k <;> rfl

/-- `getLast?` of a cons, phrased with `Option.or`. -/
theorem getLastQ_cons_or {α : Type} (a : α) (l : List α) :
    (a :: l).getLast? = (l.getLast?).or (some a) := by
  induction l generalizing a with
  | nil => rfl
  | cons b bs ih =>
    rw [List.getLast?_cons_cons, ih b]
    cases bs.getLast? <;> rfl

/-- An element delivered by `getLast?` is a member. -/
theorem mem_of_getLastQ {α : Type} (l : List α) (a : α) (h : l.getLast? = some a) : a ∈ l := by
  induction l with
  | nil => cases h
  | cons b bs ih =>
    rw [getLastQ_cons_or] at h
    cases hbs : bs.getLast? with
    | none =>
      rw [hbs] at h
      have hba : some b = some a := h
      injection hba with hba2
      rw [← hba2]
      exact List.mem_cons_self b bs
    | some x =>
      rw [hbs] at h
      have hxa : some x = some a := h
      injection hxa with hxa2
      rw [hxa2] at hbs
      exact List.mem_cons_of_mem _ (ih hbs)

/-- The normalized-header dictionary of `pick_col` maps a key to the
*last* column whose normalized form is that key. -/
theorem dlookup_foldl_insert (k : String) (cs : List String) :
    ∀ d : List (String × String),
      dlookup (cs.foldl (fun d' c => dictInsert d' (_norm c) c) d) k =
        ((cs.filter (fun c => _norm c = k)).getLast?).or (dlookup d k) := by
  induction cs with
  | nil => intro d; simp [List.foldl]
  | cons c cs ih =>
    intro d
    rw [List.foldl_cons, ih]
    by_cases h : _norm c = k
    · rw [List.filter_cons_of_pos (by simpa using h), getLastQ_cons_or,
        dlookup_dictInsert, if_pos h.symm]
      cases (cs.filter (fun c' => _norm c' = k)).getLast? <;> rfl
    · rw [List.filter_cons_of_neg (by simpa using h), dlookup_dictInsert,
        if_neg (fun he => h he.symm)]

/-- `buildDict` lookup: the last column with the given normalized form. -/
theorem dlookup_buildDict (cols : List String) (k : String) :
    dlookup (buildDict cols) k = (cols.filter (fun c => _norm c = k)).getLast? := by
  rw [buildDict, dlookup_foldl_insert]
  cases (cols.filter (fun c => _norm c = k)).getLast? <;> rfl

/-- Members of `dictInsert d k v` are members of `d` or the pair `(k, v)`. -/
theorem mem_dictInsert (d : List (String × String)) (k v : String) (p : String × String)
    (hp : p ∈ dictInsert d k v) : p ∈ d ∨ p = (k, v) := by
  unfold dictInsert at hp
  by_cases hs : (dlookup d k).isSome
  · rw [if_pos hs] at hp
    obtain ⟨q, hq, he⟩ := List.mem_map.mp hp
    by_cases h1 : q.1 = k
    · rw [if_pos h1] at he
      exact Or.inr he.symm
    · rw [if_neg h1] at he
      exact Or.inl (he ▸ hq)
  · rw [if_neg hs] at hp
    rcases List.mem_append.mp hp with h | h
    · exact Or.inl h
    · exact Or.inr (by simpa using h)

/-- Invariant propagation through the dictionary-building fold. -/
theorem mem_foldl_insert (Q : String × String → Prop) (cs : List String) :
    ∀ d : List (String × String), (∀ p ∈ d, Q p) → (∀ c ∈ cs, Q (_norm c, c)) →
      ∀ p ∈ cs.foldl (fun d' c => dictInsert d' (_norm c) c) d, Q p := by
  induction cs with
  | nil =>
    intro d hd _ p hp
    exact hd p (by simpa using hp)
  | cons c cs ih =>
    intro d hd hcs p hp
    rw [List.foldl_cons] at hp
    refine ih (dictInsert d (_norm c) c) ?_
      (fun c' hc' => hcs c' (List.mem_cons_of_mem _ hc')) p hp
    intro q hq
    rcases mem_dictInsert d (_norm c) c q hq with h | h
    · exact hd q h
    · rw [h]
      exact hcs c (List.mem_cons_self c cs)

/-- Every dictionary entry's key is the normalized form of some column
and its value is one of the columns. -/
theorem mem_buildDict (cols : List String) (p : String × String) (hp : p ∈ buildDict cols) :
    (∃ h ∈ cols, p.1 = _norm h) ∧ p.2 ∈ cols := by
  refine mem_foldl_insert (fun q => (∃ h ∈ cols, q.1 = _norm h) ∧ q.2 ∈ cols) cols [] ?_ ?_ p hp
  · intro q hq
    exact absurd hq (List.not_mem_nil q)
  · intro c hc
    exact ⟨⟨c, hc, rfl⟩, hc⟩

/-- Unfolding equation of `exactPhase` on a cons. -/
theorem exactPhase_cons (d : List (String × String)) (c : String) (cs : List String) :
    exactPhase d (c :: cs) =
      match dlookup d (_norm c) with
      | some v => some v
      | none => exactPhase d cs := rfl

/-- An exact-phase hit comes from a dictionary hit of some candidate. -/
theorem exactPhase_some (d : List (String × String)) (cands : List String) (v : String)
    (h : exactPhase d cands = some v) : ∃ c ∈ cands, dlookup d (_norm c) = some v := by
  induction cands with
  | nil => cases h
  | cons c cs ih =>
    rw [exactPhase_cons] at h
    cases hd : dlookup d (_norm c) with
    | some w =>
      rw [hd] at h
      have hwv : some w = some v := h
      injection hwv with hwv2
      exact ⟨c, List.mem_cons_self c cs, by rw [hd, hwv2]⟩
    | none =>
      rw [hd] at h
      obtain ⟨c', hc', hdl⟩ := ih h
      exact ⟨c', List.mem_cons_of_mem _ hc', hdl⟩

/-- The exact phase misses when every candidate misses the dictionary. -/
theorem exactPhase_none_of (d : List (String × String)) (cands : List String)
    (h : ∀ c ∈ cands, dlookup d (_norm c) = none) : exactPhase d cands = none := by
  induction cands with
  | nil => rfl
  | cons c cs ih =>
    rw [exactPhase_cons, h c (List.mem_cons_self c cs)]
    exact ih fun c' hc' => h c' (List.mem_cons_of_mem _ hc')

/-- The exact phase hits as soon as some candidate hits the dictionary. -/
theorem exactPhase_isSome_of (d : List (String × String)) (cands : List String)
    (c v : String) (hc : c ∈ cands) (hv : dlookup d (_norm c) = some v) :
    ∃ w, exactPhase d cands = some w := by
  induction cands with
  | nil => cases hc
  | cons a as ih =>
    rw [exactPhase_cons]
    cases hd : dlookup d (_norm a) with
    | some w => exact ⟨w, rfl⟩
    | none =>
      rcases List.mem_cons.mp hc with he | hm
      · subst he
        rw [hd] at hv
        cases hv
      · exact ih hm

/-- Unfolding equation of `dfindSub` on a cons. -/
theorem dfindSub_cons (p : String × String) (ps : List (String × String)) (key : String) :
    dfindSub (p :: ps) key = if strHasSub key p.1 then some p.2 else dfindSub ps key := rfl

/-- A substring hit returns the value of some dictionary entry. -/
theorem dfindSub_some (ps : List (String × String)) (key v : String)
    (h : dfindSub ps key = some v) : ∃ p ∈ ps, v = p.2 := by
  induction ps with
  | nil => cases h
  | cons p ps ih =>
    rw [dfindSub_cons] at h
    by_cases hp : strHasSub key p.1 = true
    · rw [if_pos hp] at h
      have hpv : some p.2 = some v := h
      injection hpv with hpv2
      exact ⟨p, List.mem_cons_self p ps, hpv2.symm⟩
    · rw [if_neg hp] at h
      obtain ⟨q, hq, he⟩ := ih h
      exact ⟨q, List.mem_cons_of_mem _ hq, he⟩

/-- The substring search misses when no entry's key contains `key`. -/
theorem dfindSub_none_of (ps : List (String × String)) (key : String)
    (h : ∀ p ∈ ps, strHasSub key p.1 = false) : dfindSub ps key = none := by
  induction ps with
  | nil => rfl
  | cons p ps ih
  =>
    rw [dfindSub_cons,
      if_neg (by rw [h p (List.mem_cons_self p ps)]; exact Bool.false_ne_true)]
    exact ih fun q hq => h q (List.mem_cons_of_mem _ hq)

/-- Unfolding equation of `subPhase` on a cons. -/
theorem subPhase_cons (d : List (String × String)) (c : String) (cs : List String) :
    subPhase d (c :: cs) =
      match (if _norm c ≠ "" then dfindSub d (_norm c) else none) with
      | some v => some v
      | none => subPhase d cs := rfl

/-- A substring-phase hit returns the value of some dictionary entry. -/
theorem subPhase_some (d : List (String × String)) (cands : List String) (v : String)
    (h : subPhase d cands = some v) : ∃ p ∈ d, v = p.2 := by
  induction cands with
  | nil => cases h
  | cons c cs ih =>
    rw [subPhase_cons] at h
    by_cases hne : _norm c ≠ ""
    · rw [if_pos hne] at h
      cases hd : dfindSub d (_norm c) with
      | some w =>
        rw [hd] at h
        have hwv : some w = some v := h
        injection hwv with hwv2
        exact hwv2 ▸ dfindSub_some d (_norm c) w hd
      | none =>
        rw [hd] at h
        exact ih h
    · rw [if_neg hne] at h
      exact ih h

/-- The substring phase misses when every candidate is empty after
normalization or is contained in no dictionary key. -/
theorem subPhase_none_of (d : List (String × String)) (cands : List String)
    (h : ∀ c ∈ cands, _norm c = "" ∨ ∀ p ∈ d, strHasSub (_norm c) p.1 = false) :
    subPhase d cands = none := by
  induction cands with
  | nil => rfl
  | cons c cs ih =>
    rw [subPhase_cons]
    rcases h c (List.mem_cons_self c cs) with h0 | hall
    · rw [if_neg (fun hne => hne h0)]
      exact ih fun c' hc' => h c' (List.mem_cons_of_mem _ hc')
    · by_cases hne : _norm c ≠ ""
      · rw [if_pos hne, dfindSub_none_of d (_norm c) hall]
        exact ih fun c' hc' => h c' (List.mem_cons_of_mem _ hc')
      · rw [if_neg hne]
        exact ih fun c' hc' => h c' (List.mem_cons_of_mem _ hc')

/-- Unfolding equation of `pick_col`. -/
theorem pick_col_eq (cols cands : List String) :
    pick_col cols cands =
      if cols = [] then none
      else
        match exactPhase (buildDict cols) cands with
        | some v => some v
        | none => subPhase (buildDict cols) cands := rfl

/-- C7: whenever some candidate equals some header up to normalization,
`pick_col` returns a header that is an exact normalized match of a
candidate (the substring fallback never preempts an exact match); when no
candidate matches exactly or by substring, it returns `none`; and the
result is always `none` or one of the headers. -/
theorem pick_col_exact_first (cols cands : List String) :
    ((∃ c ∈ cands, ∃ h ∈ cols, _norm c = _norm h) →
      ∃ h ∈ cols, pick_col cols cands = some h ∧ ∃ c ∈ cands, _norm h = _norm c)
    ∧ ((∀ c ∈ cands, ∀ h ∈ cols, _norm c ≠ _norm h) →
      (∀ c ∈ cands, _norm c = "" ∨ ∀ h ∈ cols, strHasSub (_norm c) (_norm h) = false) →
      pick_col cols cands = none)
    ∧ (pick_col cols cands = none ∨ ∃ h ∈ cols, pick_col cols cands = some h) := by
  refine ⟨?_, ?_, ?_⟩
  · rintro ⟨c, hc, h, hh, he⟩
    have hcols : cols ≠ [] := fun h0 => absurd (h0 ▸ hh) (List.not_mem_nil h)
    have hfil : h ∈ cols.filter (fun c' => _norm c' = _norm c) :=
      List.mem_filter.mpr ⟨hh, by simp [he.symm]⟩
    obtain ⟨w, hw⟩ : ∃ w, (cols.filter (fun c' => _norm c' = _norm c)).getLast? = some w := by
      cases hfl : (cols.filter (fun c' => _norm c' = _norm c)).getLast? with
      | none =>
        rw [List.getLast?_eq_none_iff] at hfl
        exact absurd (hfl ▸ hfil) (List.not_mem_nil h)
      | some w => exact ⟨w, rfl⟩
    have hdl : dlookup (buildDict cols) (_norm c) = some w := by
      rw [dlookup_buildDict]
      exact hw
    obtain ⟨v, hv⟩ := exactPhase_isSome_of (buildDict cols) cands c w hc hdl
    have hres : pick_col cols cands = some v := by
      rw [pick_col_eq, if_neg hcols, hv]
    obtain ⟨c', hc', hdl'⟩ := exactPhase_some (buildDict cols) cands v hv
    rw [dlookup_buildDict] at hdl'
    have hvf : v ∈ cols.filter (fun c'' => _norm c'' = _norm c') := mem_of_getLastQ _ v hdl'
    obtain ⟨hvc, hvn⟩ := List.mem_filter.mp hvf
    exact ⟨v, hvc, hres, c', hc', by simpa using hvn⟩
  · intro hex hsub
    by_cases hcols : cols = []
    · rw [pick_col_eq, if_pos hcols]
    · rw [pick_col_eq, if_neg hcols]
      have he : exactPhase (buildDict cols) cands = none := by
        apply exactPhase_none_of
        intro c hc
        rw [dlookup_buildDict]
        have hfil : cols.filter (fun c' => _norm c' = _norm c) = [] := by
          rw [List.filter_eq_nil_iff]
          intro h hh
          simpa using fun he' => hex c hc h hh he'.symm
        rw [hfil]
        rfl
      rw [he]
      apply subPhase_none_of
      intro c hc
      rcases hsub c hc with h0 | hall
      · exact Or.inl h0
      · refine Or.inr ?_
        intro p hp
        obtain ⟨⟨h, hh, hkey⟩, _⟩ := mem_buildDict cols p hp
        rw [hkey]
        exact hall h hh
  · cases hres : pick_col cols cands with
    | none => exact Or.inl rfl
    | some v =>
      refine Or.inr ⟨v, ?_, rfl⟩
      rw [pick_col_eq] at hres
      by_cases hcols : cols = []
      · rw [if_pos hcols] at hres
        cases hres
      · rw [if_neg hcols] at hres
        cases hex : exactPhase (buildDict cols) cands with
        | some w =>
          rw [hex] at hres
          have hwv : some w = some v := hres
          injection hwv with hwv2
          obtain ⟨c', hc', hdl'⟩ := exactPhase_some (buildDict cols) cands w hex
          rw [dlookup_buildDict] at hdl'
          have hvf : w ∈ cols.filter (fun c'' => _norm c'' = _norm c') :=
            mem_of_getLastQ _ w hdl'
          exact hwv2 ▸ (List.mem_filter.mp hvf).1
        | none =>
          rw [hex] at hres
          obtain ⟨p, hp, he⟩ := subPhase_some (buildDict cols) cands v hres
          rw [he]
          exact (mem_buildDict cols p hp).2

/-- C7 witness: with no exact and no substring match, resolution reports
"not found". -/
theorem pick_col_exact_first_witness :
    pick_col ["Номер ЭЗС"] ["Производитель"] = none := by
  exact (pick_col_exact_first ["Номер ЭЗС"] ["Производитель"]).2.1 (by decide) (by decide)

/-- C10: when two headers share a normalized form, both the exact phase
and the substring phase of `pick_col` return the *later* header (the
dict comprehension keeps the last original spelling). -/
theorem pick_col_keeps_last_duplicate (h1 h2 c : String) (hdup : _norm h1 = _norm h2) :
    (_norm c = _norm h1 → pick_col [h1, h2] [c] = some h2)
    ∧ (_norm c ≠ _norm h1 → _norm c ≠ "" → strHasSub (_norm c) (_norm h1) = true →
        pick_col [h1, h2] [c] = some h2) := by
  have hcond : (dlookup [(_norm h1, h1)] (_norm h2)).isSome := by
    rw [dlookup_cons, if_pos hdup]
    rfl
  have hbd : buildDict [h1, h2] = [(_norm h2, h2)] := by
    show dictInsert (dictInsert [] (_norm h1) h1) (_norm h2) h2 = [(_norm h2, h2)]
    have e1 : dictInsert [] (_norm h1) h1 = [(_norm h1, h1)] := rfl
    rw [e1]
    unfold dictInsert
    rw [if_pos hcond]
    simp only [List.map_cons, List.map_nil]
    rw [if_pos hdup]
  constructor
  · intro hce
    have hdl : dlookup (buildDict [h1, h2]) (_norm c) = some h2 := by
      rw [hbd, dlookup_cons, if_pos (hce.trans hdup).symm]
    have hex : exactPhase (buildDict [h1, h2]) [c] = some h2 := by
      rw [exactPhase_cons, hdl]
    rw [pick_col_eq, if_neg (by simp), hex]
  · intro hne hnemp hsub
    have hdl : dlookup (buildDict [h1, h2]) (_norm c) = none := by
      rw [hbd, dlookup_cons, if_neg (fun he => hne (he.symm.trans hdup.symm))]
      rfl
    have hex : exactPhase (buildDict [h1, h2]) [c] = none := by
      rw [exactPhase_cons, hdl]
      rfl
    have hfs : dfindSub [(_norm h2, h2)] (_norm c) = some h2 := by
      rw [dfindSub_cons, if_pos (by rw [← hdup]; exact hsub)]
    have hsp : subPhase (buildDict [h1, h2]) [c] = some h2 := by
      rw [subPhase_cons, if_pos hnemp, hbd, hfs]
    rw [pick_col_eq, if_neg (by simp), hex, hsp]

/-- C10 witness: two headers normalizing to `"дата"`; the resolver
returns the later spelling for a candidate equal to it up to case. -/
theorem pick_col_keeps_last_duplicate_witness :
    pick_col ["ДАТА", "Дата"] ["дата"] = some "Дата" := by
  exact (pick_col_keeps_last_duplicate "ДАТА" "Дата" "дата" (by decide)).1 (by decide)
/-- C3 witness: the amended invariant at a concrete two-row dataset. -/
theorem add_totals_crosstab_sums_witness :
    attCell (fillPairs [some "А", some "Б"] [some "ЕПРОМ", some "ЕПРОМ"]) "Итого" "А" "Итого" = 1
    ∧ attCell (fillPairs [some "А", some "Б"] [some "ЕПРОМ", some "ЕПРОМ"]) "Итого" "Итого" "ЕПРОМ" = 2 := by
  have h := add_totals_crosstab_sums [some "А", some "Б"] [some "ЕПРОМ", some "ЕПРОМ"] "Итого"
    (by decide) (by decide)
  constructor
  · have h3 := h.2.2.1 "А" (by decide)
    rw [← h3]
    decide
  · have h4 := h.2.2.2 "ЕПРОМ" (by decide)
    rw [← h4]
    decide

/-- The fetch loop splits the GID list into tagged frames (in order) and
collected `(gid, error)` pairs (in order). -/
theorem loadMulti_foldl (fetch : String → Except String (List Row)) (gs : List String) :
    ∀ fr er, gs.foldl (loadStep fetch) (fr, er) =
      (fr ++ gs.filterMap
        (fun g => match fetch g with | .ok d => some (tagRows g d) | .error _ => none),
       er ++ gs.filterMap
        (fun g => match fetch g with | .error e => some (g, e) | .ok _ => none)) := by
  induction gs with
  | nil =>
    intro fr er
    simp
  | cons g gs ih =>
    intro fr er
    rw [List.foldl_cons]
    cases hf : fetch g with
    | ok d =>
      have hstep : loadStep fetch (fr, er) g = (fr ++ [tagRows g d], er) := by
        unfold loadStep
        rw [hf]
      rw [hstep, ih]
      simp [List.filterMap_cons, hf]
    | error e =>
      have hstep : loadStep fetch (fr, er) g = (fr, er ++ [(g, e)]) := by
        unfold loadStep
        rw [hf]
      rw [hstep, ih]
      simp [List.filterMap_cons, hf]

/-- Unfolding equation of `loadMulti`. -/
theorem loadMulti_eq (fetch : String → Except String (List Row)) (t : String) :
    loadMulti fetch t =
      if parseGids t = [] then .noGids
      else
        let acc := (parseGids t).foldl (loadStep fetch) ([], [])
        if acc.1 = [] then .noFrames acc.2
        else if acc.1.flatten = [] then .emptyTable acc.2
        else .ok acc.1.flatten acc.2 := rfl

/-- C8 counterexample: a batch whose single source fetches successfully
but returns zero rows is stopped with the empty-table condition — the
load does not succeed even though one source succeeded. -/
theorem loadMulti_one_empty_source :
    loadMulti (fun _ => Except.ok ([] : List Row)) "1" = LoadResult.emptyTable []
    ∧ loadMulti (fun _ => Except.ok ([] : List Row)) "1" ≠ LoadResult.ok [] [] := by
  decide

/-- C8 amended: sources are fetched independently; failures are collected
in order as `(gid, error)` pairs without aborting the batch; each fetched
row is tagged with its source GID before the merge; when at least one
source succeeds the batch is never stopped at the fetch stage (it
proceeds to the merge), and the no-source-succeeded stop is a constructor
distinct from the merged-zero-rows stop. -/
theorem loadMulti_partial_failure (fetch : String → Except String (List Row)) (t : String) :
    (parseGids t = [] → loadMulti fetch t = .noGids)
    ∧ ((parseGids t).filterMap
        (fun g => match fetch g with | .ok d => some (tagRows g d) | .error _ => none) = [] →
      parseGids t ≠ [] →
      loadMulti fetch t = .noFrames ((parseGids t).filterMap
        (fun g => match fetch g with | .error e => some (g, e) | .ok _ => none)))
    ∧ ((parseGids t).filterMap
        (fun g => match fetch g with | .ok d => some (tagRows g d) | .error _ => none) ≠ [] →
      ((parseGids t).filterMap
        (fun g => match fetch g with | .ok d => some (tagRows g d) | .error _ => none)).flatten = [] →
      loadMulti fetch t = .emptyTable ((parseGids t).filterMap
        (fun g => match fetch g with | .error e => some (g, e) | .ok _ => none)))
    ∧ (((parseGids t).filterMap
        (fun g => match fetch g with | .ok d => some (tagRows g d) | .error _ => none)).flatten ≠ [] →
      loadMulti fetch t = .ok
        (((parseGids t).filterMap
          (fun g => match fetch g with | .ok d => some (tagRows g d) | .error _ => none)).flatten)
        ((parseGids t).filterMap
          (fun g => match fetch g with | .error e => some (g, e) | .ok _ => none)))
    ∧ ((∃ g ∈ parseGids t, ∃ d, fetch g = .ok d) →
      loadMulti fetch t ≠ .noGids ∧ ∀ es, loadMulti fetch t ≠ .noFrames es) := by
  set F := (parseGids t).filterMap
    (fun g => match fetch g with | .ok d => some (tagRows g d) | .error _ => none) with hF
  set E := (parseGids t).filterMap
    (fun g => match fetch g with | .error e => some (g, e) | .ok _ => none) with hE
  have hacc : (parseGids t).foldl (loadStep fetch) ([], []) = (F, E) := by
    rw [loadMulti_foldl fetch (parseGids t) [] []]
    simp [hF, hE]
  refine ⟨?_, ?_, ?_, ?_, ?_⟩
  · intro hg
    rw [loadMulti_eq, if_pos hg]
  · intro hFe hg
    rw [loadMulti_eq, if_neg hg]
    simp only [hacc]
    rw [if_pos hFe]
  · intro hFne hfl
    have hg : parseGids t ≠ [] := by
      intro h0
      apply hFne
      rw [hF, h0]
      rfl
    rw [loadMulti_eq, if_neg hg]
    simp only [hacc]
    rw [if_neg hFne, if_pos hfl]
  · intro hflne
    have hFne : F ≠ [] := by
      intro h0
      apply hflne
      rw [h0]
      rfl
    have hg : parseGids t ≠ [] := by
      intro h0
      apply hFne
      rw [hF, h0]
      rfl
    rw [loadMulti_eq, if_neg hg]
    simp only [hacc]
    rw [if_neg hFne, if_neg hflne]
  · rintro ⟨g, hg', d, hd⟩
    have hg : parseGids t ≠ [] := List.ne_nil_of_mem hg'
    have hFne : F ≠ [] := by
      refine List.ne_nil_of_mem (a := tagRows g d) ?_
      rw [hF]
      refine List.mem_filterMap.mpr ⟨g, hg', ?_⟩
      rw [hd]
    rw [loadMulti_eq, if_neg hg]
    simp only [hacc]
    rw [if_neg hFne]
    by_cases hfl : F.flatten = []
    · rw [if_pos hfl]
      exact ⟨fun h => (by cases h), fun es h => (by cases h)⟩
    · rw [if_neg hfl]
      exact ⟨fun h => (by cases h), fun es h => (by cases h)⟩

/-- C8 witness: the spec's partial-failure scenario in miniature — one of
three sources fails; the load succeeds with the two fetched tables
tagged and merged and the one error listed. -/
theorem loadMulti_partial_failure_witness :
    loadMulti
      (fun g => if g = "2" then Except.error "HTTP 500"
                else Except.ok [[("Дата", "01.03.2024")]]) "1, 2, 3"
      = LoadResult.ok
          [[("Дата", "01.03.2024"), ("_source_gid", "1")],
           [("Дата", "01.03.2024"), ("_source_gid", "3")]]
          [("2", "HTTP 500")] := by
  exact (loadMulti_partial_failure
    (fun g => if g = "2" then Except.error "HTTP 500"
              else Except.ok [[("Дата", "01.03.2024")]]) "1, 2, 3").2.2.2.1 (by decide)

/-- `strsToPyList` round-trips to a `List` of JSON strings. -/
theorem strsToPyList_toList (ks : List String) :
    (strsToPyList ks).toList = ks.map PyJson.str := by
  induction ks with
  | nil => rfl
  | cons s ss ih =>
    show PyJson.str s :: (strsToPyList ss).toList = _
    rw [ih, List.map_cons]

/-- `(v or "")` on a JSON string is that string. -/
theorem truthy_str_coalesce (s : String) :
    (if pyTruthy (.str s) then PyJson.str s else .str "") = .str s := by
  by_cases h : s = "" <;> simp [pyTruthy, h]

/-- `(v or [])` on a JSON array is that array. -/
theorem truthy_arr_coalesce (l : PyList) :
    (if pyTruthy (.arr l) then PyJson.arr l else .arr .nil) = .arr l := by
  cases l <;> simp [pyTruthy]

/-- On a well-formed JSON rule, the raw-JSON rule step never raises and
agrees with the typed classifier's per-rule behaviour. -/
theorem ruleStep_jsonRule (t : String) (r : ThemeRule) :
    ruleStep t (jsonRule r) = .ok (if ruleMatchesB t r then some (effLabel r.theme) else none) := by
  have hg1 : pyGet (PyObj.cons "theme" (PyJson.str r.theme)
      (PyObj.cons "keywords" (PyJson.arr (strsToPyList r.keywords)) PyObj.nil)) "theme"
      (PyJson.str "") = PyJson.str r.theme := rfl
  have hg2 : pyGet (PyObj.cons "theme" (PyJson.str r.theme)
      (PyObj.cons "keywords" (PyJson.arr (strsToPyList r.keywords)) PyObj.nil)) "keywords"
      (PyJson.arr PyList.nil) = PyJson.arr (strsToPyList r.keywords) := rfl
  simp only [ruleStep, jsonRule]
  rw [hg1, hg2, truthy_str_coalesce, truthy_arr_coalesce]
  simp only [pyStripJson, iterOf, strsToPyList_toList, List.any_map]
  simp [Function.comp, pyStr, effLabel, ruleMatchesB]

/-- The raw-JSON classifier loop on well-typed rules agrees with the
typed classifier loop and never raises. -/
theorem classifyJsonGo_typed (t : String) (rules : List ThemeRule) :
    classifyJsonGo t (rulesToPyList rules).toList = .ok (classifyGo t rules) := by
  induction rules with
  | nil => rfl
  | cons r rs ih =>
    show classifyJsonGo t (jsonRule r :: (rulesToPyList rs).toList) = _
    have hgo : classifyJsonGo t (jsonRule r :: (rulesToPyList rs).toList) =
        match ruleStep t (jsonRule r) with
        | .error e => .error e
        | .ok (some l) => .ok l
        | .ok none => classifyJsonGo t (rulesToPyList rs).toList := rfl
    rw [hgo, ruleStep_jsonRule]
    by_cases h : ruleMatchesB t r = true
    · rw [if_pos h, classifyGo_cons, if_pos h]
    · rw [if_neg h, classifyGo_cons, if_neg h]
      exact ih

/-- C9: a malformed rules configuration (parse error or non-list JSON) is
replaced by the complete built-in default rule set with the warning flag
set; a well-formed list is kept as-is with no warning (so the result is
never a partial mix of defaults and user rules); and classification with the substituted defaults proceeds without
raising, agreeing with the typed classifier on the default rules. -/
theorem theme_rules_fallback (input : Except String PyJson) :
    (malformedRules input = true → theme_rules_cfg input = (defaultThemeRulesJson, true))
    ∧ (malformedRules input = false →
        ∃ l, input = .ok (.arr l) ∧ theme_rules_cfg input = (l, false))
    ∧ (∀ text, classifyThemeJson text defaultThemeRulesJson
        = .ok (classify_theme text DEFAULT_THEME_RULES)) := by
  refine ⟨?_, ?_, ?_⟩
  · intro hm
    cases input with
    | error e => rfl
    | ok j => cases j with
      | arr l => cases hm
      | null => rfl
      | bool b => rfl
      | num n => rfl
      | str s => rfl
      | obj o => rfl
  · intro hm
    cases input with
    | error e => cases hm
    | ok j => cases j with
      | arr l => exact ⟨l, rfl, rfl⟩
      | null => cases hm
      | bool b => cases hm
      | num n => cases hm
      | str s => cases hm
      | obj o => cases hm
  · intro text
    exact classifyJsonGo_typed (_norm text) DEFAULT_THEME_RULES

/-- C9 witness: a parsed-but-non-list configuration is replaced by the
full default set with a warning, and a classification with the
substituted defaults runs and returns a label. -/
theorem theme_rules_fallback_witness :
    theme_rules_cfg (.ok (.num 5)) = (defaultThemeRulesJson, true)
    ∧ classifyThemeJson "Проблема с балансом" defaultThemeRulesJson = .ok "Платежи / Баланс" := by
  exact ⟨(theme_rules_fallback (.ok (.num 5))).1 rfl,
    (theme_rules_fallback (.ok (.num 5))).2.2 "Проблема с балансом"⟩
